import Mathlib

/-!
Verification development for `dhcp_121.py`, a DHCP Option 121 static-route
installer for pre-El-Capitan macOS.

The Python source (Python 2) is embedded shallowly:

* Python strings are Lean `String`s; all text processing is carried out on
  `String.toList` (`List Char`) so every definition evaluates by kernel
  reduction.
* Python integers are `Nat` (every integer in the modelled code is
  non-negative: hex bytes, mask bit counts, 32-bit address words).
* A Python value that may be either an `int` or a `str` (a route's mask
  field) is modelled by `PyVal`; `pyEq` is Python 2 `==`, which is `False`
  across the `int`/`str` types.
* Code that can raise (`int(x, 16)`, `socket.inet_aton`, tuple unpacking,
  list indexing past the end) returns `Option`; `none` is an uncaught
  exception aborting the enclosing call.
* OS collaborators (the `netstat` route dump split into token rows, the
  `ifconfig` interface listing split into lines, `networksetup` link states,
  interface addresses, the override file's lines) are passed in as explicit
  parameters; the route/`route_cmd` executor is modelled by returning the
  list of mutations the function issues.
-/

/-- A Python value that is either an `int`, a `str`, or a `bool`.  Needed
because `dhcp_121.py` stores an `int` netmask in routes decoded from option
121 data but a `str` netmask in routes parsed from `netstat` output or from
the override file. -/
inductive PyVal where
  | pyInt (n : Nat)
  | pyStr (s : String)
  | pyBool (b : Bool)
deriving DecidableEq, Repr

open PyVal

/-- Python 2 `==` on `PyVal`.  Values of type `str` never compare equal to
values of type `int` (`'24' == 24` is `False`); `bool` compares to `int` by
its numeric value (`True == 1`). -/
def pyEq : PyVal → PyVal → Bool
  | pyInt a, pyInt b => a == b
  | pyStr a, pyStr b => a == b
  | pyBool a, pyBool b => a == b
  | pyBool a, pyInt b => (if a then 1 else 0) == b
  | pyInt a, pyBool b => a == (if b then 1 else 0)
  | _, _ => false

/-- Python's whitespace class (the characters `str.split()` splits on). -/
def isPySpace (c : Char) : Bool :=
  c == ' ' || c == '\t' || c == '\n' || c == '\r' || c == '\x0b' || c == '\x0c'

/-- Python regex `\w` (ASCII word character). -/
def isWordChar (c : Char) : Bool :=
  c.isAlphanum || c == '_'

/-- Python regex `\W` (ASCII non-word character). -/
def isNonWord (c : Char) : Bool :=
  !(isWordChar c)

/-- Helper for `splitWS`: accumulates the current token (reversed) while
scanning the character list, mirroring how `str.split()` discards empty
tokens between whitespace runs. -/
def splitWSAux : List Char → List Char → List (List Char)
  | [], cur => if cur.isEmpty then [] else [cur.reverse]
  | c :: rest, cur =>
    if isPySpace c then
      if cur.isEmpty then splitWSAux rest []
      else cur.reverse :: splitWSAux rest []
    else splitWSAux rest (c :: cur)

/-- Python `s.split()` — split on whitespace runs, no empty tokens. -/
def splitWS (s : String) : List String :=
  (splitWSAux s.toList []).map String.mk

/-- Split a character list on a single separator character, keeping empty
pieces, as Python `s.split(sep)` does. -/
def splitOnSep (sep : Char) : List Char → List (List Char)
  | [] => [[]]
  | c :: rest =>
    let r := splitOnSep sep rest
    if c = sep then [] :: r
    else
      match r with
      | h :: t => (c :: h) :: t
      | [] => [[c]]

/-- Python `s.split(sep)` for a one-character separator. -/
def pySplit (sep : Char) (s : String) : List String :=
  (splitOnSep sep s.toList).map String.mk

/-- Python `s.strip()` — remove leading and trailing whitespace. -/
def pyStrip (s : String) : String :=
  String.mk (((s.toList.dropWhile isPySpace).reverse.dropWhile isPySpace).reverse)

/-- Python substring containment `needle in hay`. -/
def substrB (needle hay : List Char) : Bool :=
  hay.tails.any (fun t => needle.isPrefixOf t)

/-- Python `len(s)` for a string (character count; all modelled text is
ASCII, where this agrees with the byte count). -/
def pyLen (s : String) : Nat :=
  s.toList.length

/-- Value of one hexadecimal digit, or `none`. -/
def hexDigit? (c : Char) : Option Nat :=
  if '0' ≤ c ∧ c ≤ '9' then some (c.toNat - '0'.toNat)
  else if 'a' ≤ c ∧ c ≤ 'f' then some (c.toNat - 'a'.toNat + 10)
  else if 'A' ≤ c ∧ c ≤ 'F' then some (c.toNat - 'A'.toNat + 10)
  else none

/-- Python `int(s, 16)` for the token shapes the capture produces: a
non-empty run of hex digits.  A token with any other character (such as the
`'..'` ASCII-gutter filler) raises `ValueError`, modelled by `none`.  (The
sign and `0x`-prefix forms `int` also accepts never occur in the data and
are omitted.) -/
def int16? (s : String) : Option Nat :=
  if s.toList.isEmpty then none
  else s.toList.foldl
    (fun acc c => do
      let a ← acc
      let d ← hexDigit? c
      pure (a * 16 + d))
    (some 0)

/-- Value of one decimal-digit run, or `none` if empty or non-numeric. -/
def decDigits? : List Char → Option Nat
  | [] => none
  | l =>
    l.foldl
      (fun acc c => do
        let a ← acc
        if c.isDigit then pure (a * 10 + (c.toNat - '0'.toNat)) else none)
      (some 0)

/-- Python `socket.inet_aton` restricted to the dotted-quad form the
modelled code feeds it: exactly four decimal components, each at most 255,
yielding the big-endian 32-bit word.  Anything else raises, modelled by
`none`.  (The octal/hex and short forms `inet_aton` also accepts never
occur in `netstat`/`ifconfig` output.) -/
def inet_aton (s : String) : Option Nat :=
  match (splitOnSep '.' s.toList).map decDigits? with
  | [some a, some b, some c, some d] =>
    if a ≤ 255 ∧ b ≤ 255 ∧ c ≤ 255 ∧ d ≤ 255 then
      some (((a * 256 + b) * 256 + c) * 256 + d)
    else none
  | _ => none

/-- The 32-character binary rendering (most significant bit first) that
`ip_address_to_32bit` builds with `bin()` and zero left-padding, modelled
as a list of 32 booleans. -/
def natToBin32 (n : Nat) : List Bool :=
  (List.range 32).map (fun i => n.testBit (31 - i))

/-- `ip_address_to_32bit(address)`: dotted quad to the
32-character binary string (`'0'`/`'1'` as `false`/`true`).  `none` models
the `socket.error` raised on a malformed address. -/
def ip_address_to_32bit (address : String) : Option (List Bool) :=
  (inet_aton address).map natToBin32

/-- `subnet_check(netmask_bits, ip_address, target)`: true when `target`
lies in the subnet of `ip_address` under the mask
`(0xFFFFFFFF >> netmask_bits) ^ 0xFFFFFFFF`.  `none` models the exception
raised when either dotted quad fails to parse. -/
def subnet_check (netmask_bits : Nat) (ip_address target : String) : Option Bool := do
  let ip_decimal ← inet_aton ip_address
  let target_decimal ← inet_aton target
  let netmask_decimal := (0xFFFFFFFF >>> netmask_bits) ^^^ 0xFFFFFFFF
  pure ((ip_decimal &&& netmask_decimal) == (target_decimal &&& netmask_decimal))

/-- Python `'.'.join(l)` after rendering each octet with `str()`. -/
def dotJoin (l : List Nat) : String :=
  String.intercalate "." (l.map (fun n => toString n))

/-- The `while len(dot_subnet) < 4: dot_subnet.append('0')` padding that
completes a subnet to four dotted components. -/
def pad4 (l : List Nat) : List Nat :=
  l ++ List.replicate (4 - l.length) 0

/-- The guard `entry is not '..'` from `decode_option_121`.  CPython object
identity: `entry` is a fresh string produced by `line.split()` and `'..'`
is not interned (it contains non-identifier characters), so the identity
test is true for every token — including tokens equal to `'..'`.  The
intended value-inequality guard is therefore a no-op. -/
def entryIsNotDotDot (_ : String) : Bool :=
  true

/-- The token filter of `decode_option_121`: walk each capture line, split
on whitespace, and keep the entries whose length is below three that pass
the (ineffective) `is not '..'` guard. -/
def buildByteStream (option_data : List String) : List String :=
  (option_data.map
    (fun line => (splitWS line).filter
      (fun entry => decide (pyLen entry < 3) && entryIsNotDotDot entry))).flatten

/-- The byte-consuming loop of `decode_option_121`, one step per stream
byte.  Arguments mirror the Python locals: `subnet_mask`, `net_bytes`,
`gateway_bytes`, `dot_subnet`, `dot_gateway`, and the accumulated `routes`
(each `(subnet, subnet_mask, gateway)` with dotted-quad strings and the
integer mask).  The close test reads `gateway_bytes` after the current
byte's update, exactly as the Python does. -/
def decodeLoop : List Nat → Nat → Nat → Nat → List Nat → List Nat →
    List (String × Nat × String) → List (String × Nat × String)
  | [], _, _, _, _, _, routes => routes
  | b :: rest, subnet_mask, net_bytes, gateway_bytes, dot_subnet, dot_gateway, routes =>
    if subnet_mask ≠ 0 then
      if net_bytes ≠ 0 then
        if gateway_bytes = 0 then
          decodeLoop rest 0 (net_bytes - 1) 4 [] []
            (routes ++ [(dotJoin (pad4 (dot_subnet ++ [b])), subnet_mask, dotJoin dot_gateway)])
        else
          decodeLoop rest subnet_mask (net_bytes - 1) gateway_bytes
            (dot_subnet ++ [b]) dot_gateway routes
      else
        if gateway_bytes - 1 = 0 then
          decodeLoop rest 0 net_bytes 4 [] []
            (routes ++ [(dotJoin (pad4 dot_subnet), subnet_mask, dotJoin (dot_gateway ++ [b]))])
        else
          decodeLoop rest subnet_mask net_bytes (gateway_bytes - 1)
            dot_subnet (dot_gateway ++ [b]) routes
    else
      decodeLoop rest b (b / 8) gateway_bytes dot_subnet dot_gateway routes

/-- `decode_option_121`'s loop applied to an already-converted byte list,
from the initial state `subnet_mask = 0`, `net_bytes = 0`,
`gateway_bytes = 4`, empty pattern lists. -/
def decode_option_121_stream (bytes : List Nat) : List (String × Nat × String) :=
  decodeLoop bytes 0 0 4 [] [] []

/-- `decode_option_121(option_data)`: filter the capture lines to the kept
tokens, convert each with `int(_, 16)` (a failure anywhere raises, losing
every route), and run the decoding loop. -/
def decode_option_121 (option_data : List String) :
    Option (List (String × Nat × String)) :=
  ((buildByteStream option_data).mapM int16?).map decode_option_121_stream

/-- Python regex `re.match(r'\d+\.\d+\.\d+\.\d+', s)`: the string begins
with four runs of one or more digits separated by dots.  (`\d+` is greedy
and `.` is not a digit, so maximal-munch is forced and backtracking is
irrelevant.) -/
def matchDottedQuad (s : String) : Bool :=
  let l0 := s.toList
  let d1 := l0.takeWhile Char.isDigit
  let r1 := l0.drop d1.length
  match d1, r1 with
  | [], _ => false
  | _, '.' :: r1 =>
    let d2 := r1.takeWhile Char.isDigit
    let r2 := r1.drop d2.length
    match d2, r2 with
    | [], _ => false
    | _, '.' :: r2 =>
      let d3 := r2.takeWhile Char.isDigit
      let r3 := r2.drop d3.length
      match d3, r3 with
      | [], _ => false
      | _, '.' :: r3 => !(r3.takeWhile Char.isDigit).isEmpty
      | _, _ => false
    | _, _ => false
  | _, _ => false

/-- `get_ipv4_routes(route_table)`: keep the rows with at least six fields
whose second field looks like a dotted quad and whose first field does not
contain `'default'`.  A row is one `netstat` output line already split into
whitespace-separated tokens. -/
def get_ipv4_routes (route_table : List (List String)) : List (List String) :=
  route_table.filter
    (fun item =>
      decide (item.length ≥ 6) &&
      (matchDottedQuad (item.getD 1 "") &&
       !(substrB "default".toList (item.getD 0 "").toList)))

/-- Python `target.count('.')`. -/
def countDots (t : String) : Nat :=
  t.toList.count '.'

/-- One iteration of `while target.count('.') < 3: target = target + '.0'`. -/
def padStep (t : String) : String :=
  if countDots t < 3 then t ++ ".0" else t

/-- The full padding loop.  Each iteration adds exactly one `'.'`, so at
most three iterations run; three unconditional `padStep`s therefore equal
the `while` loop on every input. -/
def padTarget (t : String) : String :=
  padStep (padStep (padStep t))

/-- The classful-inference fallback of `get_route_table_with_masks`: three
independent `if`s over the leading characters of the 32-character binary
rendering.  Note the third test slices three characters (`bit_subnet[:3]`)
and compares them with the two-character literal `'11'`. -/
def classfulMask (bit_subnet : List Bool) : String :=
  let mask := ""
  let mask := if bit_subnet.take 1 == [false] then "8" else mask
  let mask := if bit_subnet.take 2 == [true, false] then "16" else mask
  let mask := if bit_subnet.take 3 == [true, true] then "24" else mask
  mask

/-- The per-row body of `get_route_table_with_masks`: split an explicit
`A.B.C.D/N` destination (the two-element tuple unpacking raises when the
destination has more than one `'/'`), pad the target to a full dotted quad,
infer a missing mask classfully, and emit
`[target, mask, gateway, interface]` (fields 0, 1 and 5 of the row). -/
def routeRowWithMask (route : List String) : Option (List String) := do
  let dest := route.getD 0 ""
  let (target, mask) ←
    if substrB "/".toList dest.toList then
      match pySplit '/' dest with
      | [t, m] => some (t, m)
      | _ => none
    else some (dest, "")
  let target := padTarget target
  let mask ←
    if mask = "" then do
      let bit_subnet ← ip_address_to_32bit target
      pure (classfulMask bit_subnet)
    else pure mask
  pure [target, mask, route.getD 1 "", route.getD 5 ""]

/-- `get_route_table_with_masks()`: the `netstat -f inet -rn` dump —
supplied here as token rows, one per output line — filtered by
`get_ipv4_routes` and normalised row by row.  An exception in any row
(`none`) aborts the whole call. -/
def get_route_table_with_masks (route_table : List (List String)) :
    Option (List (List String)) :=
  (get_ipv4_routes route_table).mapM routeRowWithMask

/-- A desired route as `set_routes` sees it: `route[0]` the subnet string,
`route[1]` the mask (an `int` when the route came from
`decode_option_121`, a `str` when it came from the override file), and
`route[2]` the gateway string. -/
structure PyRoute where
  subnet : String
  mask : PyVal
  gateway : String
deriving DecidableEq, Repr

/-- View a decoded `(subnet, subnet_mask, gateway)` tuple as the desired
route `main` passes to `set_routes`; the mask stays an `int`. -/
def routes_of_decoded (l : List (String × Nat × String)) : List PyRoute :=
  l.map (fun r => ⟨r.1, pyInt r.2.1, r.2.2⟩)

/-- One semicolon-separated `forceroutes` entry, parsed as
`static.split('/')[0].strip()` and the two whitespace-separated words after
the first `'/'`; a missing part raises (`none`).  Its mask is a `str`. -/
def parseStatic (static : String) : Option PyRoute := do
  let parts := pySplit '/' static
  let subnet := pyStrip (parts.getD 0 "")
  let afterSlash ← parts.get? 1
  let words := splitWS (pyStrip afterSlash)
  let mask ← words.get? 0
  let gateway ← words.get? 1
  pure ⟨subnet, pyStr mask, gateway⟩

/-- `Option`-valued filter keeping the elements decided `true`, in order;
a `none` from the predicate aborts the whole traversal, like an exception
inside the `for route in routes:` loop. -/
def filterOptM (p : α → Option Bool) : List α → Option (List α)
  | [] => some []
  | x :: xs => do
    let b ← p x
    let r ← filterOptM p xs
    pure (if b then x :: r else r)

/-- The per-route body of `set_routes`: `set_route` starts false, the
gateway check (when enabled) sets it true if any interface address
satisfies `subnet_check`, a disabled check sets it true unconditionally,
and an existing row with the same subnet and (Python-)equal mask forces it
false.  `addresses` are the `(ip, mask, broadcast)` tuples of
`get_ip_addresses`. -/
def route_set_decision (gatewaycheck : Bool)
    (addresses : List (String × Nat × String))
    (current_routes : List (List String)) (route : PyRoute) : Option Bool := do
  let set_route ←
    if gatewaycheck then
      addresses.foldlM
        (fun acc a => do
          let b ← subnet_check a.2.1 a.1 route.gateway
          pure (acc || b))
        false
    else pure true
  pure
    (if current_routes.any
        (fun current =>
          current.getD 0 "" == route.subnet && pyEq (pyStr (current.getD 1 "")) route.mask)
     then false else set_route)

/-- `set_routes(routes, addresses, gatewaycheck, static_routes)`: read the
current table (the raw `netstat` rows are a parameter), append the
override-file static routes when `static_routes` is non-empty (Python
truthiness), and issue an add for every route whose decision is true.  The
returned list is the sequence of routes passed to `route_cmd(route)`. -/
def set_routes (routes : List PyRoute) (addresses : List (String × Nat × String))
    (gatewaycheck : Bool) (static_routes : String)
    (route_table : List (List String)) : Option (List PyRoute) := do
  let current_routes ← get_route_table_with_masks route_table
  let statics ←
    if static_routes ≠ "" then (pySplit ';' static_routes).mapM parseStatic
    else pure []
  filterOptM (route_set_decision gatewaycheck addresses current_routes)
    (routes ++ statics)

/-- Python regex `re.match(r'^\w+: ', line)`: one or more word characters
followed by a colon and a space. -/
def matchNicLine (line : String) : Bool :=
  let l := line.toList
  let w := l.takeWhile isWordChar
  match w, l.drop w.length with
  | [], _ => false
  | _, ':' :: ' ' :: _ => true
  | _, _ => false

/-- The interface-name scan of `clear_routes`: every `ifconfig -a inet`
line that opens an interface block contributes `line.split(':')[0].strip()`. -/
def parseNics (interfaces : List String) : List String :=
  (interfaces.filter matchNicLine).map
    (fun line => pyStrip ((pySplit ':' line).getD 0 ""))

/-- Python regex `re.match('[Nn][Oo]', state[:2])`: the link state reported
by `networksetup` starts with `No`/`no`/`nO`/`NO` (matching `None` and
`not set`; an absent interface reports `''`, which does not match). -/
def matchNo (state : String) : Bool :=
  match state.toList.take 2 with
  | [c0, c1] => (c0 == 'N' || c0 == 'n') && (c1 == 'O' || c1 == 'o')
  | _ => false

/-- `clear_routes(forcenics, safenics)`: the current route rows and the
`ifconfig` lines are parameters, as is the `networksetup` link-state oracle.
The clear set starts from the whitespace-split force list; every enumerated
interface that is not on the safe list, whose link state matches the
down/absent pattern, and that is not already in the set is appended.  The
result is the list of route rows for which a delete mutation is issued
(`route_cmd` receives fields 0–2 of each row). -/
def clear_routes (forcenics safenics : String)
    (route_table : List (List String)) (interfaces : List String)
    (linkState : String → String) : Option (List (List String)) := do
  let routes ← get_route_table_with_masks route_table
  let nics := parseNics interfaces
  let clear0 := (splitWS forcenics).map pyStrip
  let safenics_list := (splitWS safenics).map pyStrip
  let clear_nics := nics.foldl
    (fun acc nic =>
      if nic ∉ safenics_list ∧ (matchNo (linkState nic) ∧ nic ∉ acc)
      then acc ++ [nic] else acc)
    clear0
  pure (clear_nics.foldl
    (fun acc nic => acc ++ routes.filter (fun rt => rt.getD 3 "" == nic)) [])

/-- Python regex `re.match(r'(\W){0,}KEY(\W){0,}=(\W){0,}', line)` for a
key made of word characters: a maximal run of non-word characters, then the
key, then non-word characters up to an `'='`.  (The leading `(\W)*` cannot
stop early because the key starts with a word character, and the `'='`
must appear inside the non-word run that follows the key because `'='` is
itself a non-word character.) -/
def matchKeyEq (key line : String) : Bool :=
  let rest := line.toList.dropWhile isNonWord
  key.toList.isPrefixOf rest &&
    ((rest.drop key.toList.length).takeWhile isNonWord).contains '='

/-- Python `line.split('=')[1].strip()` (with `''` for a line without
`'='`, which the matched lines always have). -/
def eqValue (line : String) : String :=
  pyStrip ((pySplit '=' line).getD 1 "")

/-- One line of the override-file scan.  The accumulator is the tuple
`(nic, gatewaycheck, force_nics, safe_nics, static_routes)` returned by
`check_for_override_file`; comment lines starting `'#'` are skipped, and
each matching assignment overwrites its variable.  No branch ever assigns
`force_nics`, and the `gatewaycheck` assignment stores the raw string. -/
def overrideStep (acc : String × PyVal × String × String × String)
    (line : String) : String × PyVal × String × String × String :=
  match line.toList with
  | '#' :: _ => acc
  | _ =>
    let (nic, gatewaycheck, force_nics, safe_nics, static_routes) := acc
    let nic := if matchKeyEq "nic" line then eqValue line else nic
    let gatewaycheck :=
      if matchKeyEq "gatewaycheck" line then pyStr (eqValue line) else gatewaycheck
    let safe_nics := if matchKeyEq "safe_nics" line then eqValue line else safe_nics
    let static_routes :=
      if matchKeyEq "staticroutes" line then eqValue line else static_routes
    (nic, gatewaycheck, force_nics, safe_nics, static_routes)

/-- `check_for_override_file()` over the override file's lines, starting
from `nic = force_nics = safe_nics = static_routes = ''` and
`gatewaycheck = True`, returning
`(nic, gatewaycheck, force_nics, safe_nics, static_routes)`. -/
def check_for_override_file (file_data : List String) :
    String × PyVal × String × String × String :=
  file_data.foldl overrideStep ("", pyBool true, "", "", "")

/-- The `(force-position, safe-position)` argument pair `main` passes to
`clear_routes` on its no-lease branch, after unpacking
`nic, gatewaycheck, safenics, forcenics, static_routes =
check_for_override_file()` — which binds the returned `force_nics` to the
local `safenics` and the returned `safe_nics` to the local `forcenics`. -/
def main_clear_args (file_data : List String) : String × String :=
  let r := check_for_override_file file_data
  let safenics := r.2.2.1
  let forcenics := r.2.2.2.1
  (forcenics, safenics)

/-- The same argument pair on `main`'s lease branch: the monitored NIC
(override value, or the default-route NIC) is appended to the force
position unless it already occurs in it as a substring. -/
def main_clear_args_with_packet (file_data : List String)
    (default_nic : String) : String × String :=
  let r := check_for_override_file file_data
  let nic := if r.1 = "" then default_nic else r.1
  let safenics := r.2.2.1
  let forcenics := r.2.2.2.1
  let preforcenics :=
    if substrB nic.toList forcenics.toList then forcenics
    else forcenics ++ " " ++ nic
  (preforcenics, safenics)

/-- The wire encoding of one synthetic `(prefixLength, subnet, gateway)`
tuple under the documented convention: one prefix-length byte, then
`prefixLength / 8` (floor) subnet octets, then the four gateway octets. -/
def encodeOne (t : Nat × List Nat × List Nat) : List Nat :=
  t.1 :: (t.2.1.take (t.1 / 8) ++ t.2.2)

/-- The wire encoding of a sequence of synthetic tuples, concatenated in
order. -/
def encodeTuples (ts : List (Nat × List Nat × List Nat)) : List Nat :=
  (ts.map encodeOne).flatten

/-- The route the decoder reproduces from one encoded tuple: the kept
subnet octets padded with zeros to four components, the prefix length, and
the gateway. -/
def decodedOne (t : Nat × List Nat × List Nat) : String × Nat × String :=
  (dotJoin (pad4 (t.2.1.take (t.1 / 8))), t.1, dotJoin t.2.2)

theorem decodeLoop_step_mask (b : Nat) (rest : List Nat) (nb gb : Nat)
    (ds dg : List Nat) (R : List (String × Nat × String)) :
    decodeLoop (b :: rest) 0 nb gb ds dg R = decodeLoop rest b (b / 8) gb ds dg R := by
  simp [decodeLoop]

theorem decodeLoop_step_subnet (b : Nat) (rest : List Nat) (m nb gb : Nat)
    (ds dg : List Nat) (R : List (String × Nat × String))
    (hm : m ≠ 0) (hnb : nb ≠ 0) (hgb : ¬ gb = 0) :
    decodeLoop (b :: rest) m nb gb ds dg R =
      decodeLoop rest m (nb - 1) gb (ds ++ [b]) dg R := by
  simp only [decodeLoop]
  rw [if_pos hm, if_pos hnb, if_neg hgb]

theorem decodeLoop_step_subnet_close (b : Nat) (rest : List Nat) (m nb : Nat)
    (ds dg : List Nat) (R : List (String × Nat × String))
    (hm : m ≠ 0) (hnb : nb ≠ 0) :
    decodeLoop (b :: rest) m nb 0 ds dg R =
      decodeLoop rest 0 (nb - 1) 4 [] []
        (R ++ [(dotJoin (pad4 (ds ++ [b])), m, dotJoin dg)]) := by
  simp only [decodeLoop]
  rw [if_pos hm, if_pos hnb]
  simp

theorem decodeLoop_step_gw (b : Nat) (rest : List Nat) (m gb : Nat)
    (ds dg : List Nat) (R : List (String × Nat × String))
    (hm : m ≠ 0) (hgb : ¬ gb - 1 = 0) :
    decodeLoop (b :: rest) m 0 gb ds dg R =
      decodeLoop rest m 0 (gb - 1) ds (dg ++ [b]) R := by
  simp only [decodeLoop]
  rw [if_pos hm, if_neg (by simp : ¬ (0 : Nat) ≠ 0), if_neg hgb]

theorem decodeLoop_step_close (b : Nat) (rest : List Nat) (m gb : Nat)
    (ds dg : List Nat) (R : List (String × Nat × String))
    (hm : m ≠ 0) (hgb : gb - 1 = 0) :
    decodeLoop (b :: rest) m 0 gb ds dg R =
      decodeLoop rest 0 0 4 [] []
        (R ++ [(dotJoin (pad4 ds), m, dotJoin (dg ++ [b]))]) := by
  simp only [decodeLoop]
  rw [if_pos hm, if_neg (by simp : ¬ (0 : Nat) ≠ 0), if_pos hgb]

theorem decodeLoop_append (s : List Nat) :
    ∀ m nb gb ds dg R, decodeLoop s m nb gb ds dg R =
      R ++ decodeLoop s m nb gb ds dg [] := by
  induction s with
  | nil => intro m nb gb ds dg R; simp [decodeLoop]
  | cons b rest ih =>
    intro m nb gb ds dg R
    by_cases h1 : m = 0
    · subst h1
      rw [decodeLoop_step_mask, decodeLoop_step_mask]
      exact ih b (b / 8) gb ds dg R
    · by_cases h2 : nb = 0
      · subst h2
        by_cases h3 : gb - 1 = 0
        · rw [decodeLoop_step_close b rest m gb ds dg R h1 h3,
            decodeLoop_step_close b rest m gb ds dg [] h1 h3]
          conv_rhs => rw [ih]
          rw [ih]
          simp
        · rw [decodeLoop_step_gw b rest m gb ds dg R h1 h3,
            decodeLoop_step_gw b rest m gb ds dg [] h1 h3]
          exact ih m 0 (gb - 1) ds (dg ++ [b]) R
      · by_cases h3 : gb = 0
        · subst h3
          rw [decodeLoop_step_subnet_close b rest m nb ds dg R h1 h2,
            decodeLoop_step_subnet_close b rest m nb ds dg [] h1 h2]
          conv_rhs => rw [ih]
          rw [ih]
          simp
        · rw [decodeLoop_step_subnet b rest m nb gb ds dg R h1 h2 h3,
            decodeLoop_step_subnet b rest m nb gb ds dg [] h1 h2 h3]
          exact ih m (nb - 1) gb (ds ++ [b]) dg R

theorem consume_subnet (xs : List Nat) :
    ∀ ys m ds R, m ≠ 0 →
      decodeLoop (xs ++ ys) m xs.length 4 ds [] R =
        decodeLoop ys m 0 4 (ds ++ xs) [] R := by
  induction xs with
  | nil => intro ys m ds R _; simp
  | cons x xs ih =>
    intro ys m ds R hm
    simp only [List.cons_append, List.length_cons]
    rw [decodeLoop_step_subnet x (xs ++ ys) m (xs.length + 1) 4 ds [] R hm
      (Nat.succ_ne_zero xs.length) (by decide)]
    simpa [List.append_assoc] using ih ys m (ds ++ [x]) R hm

theorem consume_gateway (g : List Nat) :
    ∀ ys m ds dg R, m ≠ 0 → g ≠ [] →
      decodeLoop (g ++ ys) m 0 g.length ds dg R =
        decodeLoop ys 0 0 4 [] []
          (R ++ [(dotJoin (pad4 ds), m, dotJoin (dg ++ g))]) := by
  induction g with
  | nil => intro ys m ds dg R _ hg; exact absurd rfl hg
  | cons x g ih =>
    intro ys m ds dg R hm _
    cases g with
    | nil =>
      simp only [List.cons_append, List.nil_append, List.length_cons, List.length_nil]
      rw [decodeLoop_step_close x ys m 1 ds dg R hm (by decide)]
    | cons y g2 =>
      simp only [List.cons_append, List.length_cons]
      rw [decodeLoop_step_gw x (y :: (g2 ++ ys)) m (g2.length + 1 + 1) ds dg R hm
        (by simp)]
      have h := ih ys m ds (dg ++ [x]) R hm (List.cons_ne_nil y g2)
      simp only [List.cons_append, List.length_cons] at h
      simpa [List.append_assoc] using h

theorem consume_gateway4 (g ys : List Nat) (m : Nat) (ds dg : List Nat)
    (R : List (String × Nat × String)) (hm : m ≠ 0) (hg : g.length = 4) :
    decodeLoop (g ++ ys) m 0 4 ds dg R =
      decodeLoop ys 0 0 4 [] []
        (R ++ [(dotJoin (pad4 ds), m, dotJoin (dg ++ g))]) := by
  have hgn : g ≠ [] := by intro h; rw [h] at hg; simp at hg
  conv_lhs => rw [← hg]
  exact consume_gateway g ys m ds dg R hm hgn

theorem decode_record (p : Nat) (s g ys : List Nat)
    (R : List (String × Nat × String)) (hp : p ≠ 0) (hs : s.length = p / 8)
    (hg : g.length = 4) :
    decodeLoop (p :: (s ++ (g ++ ys))) 0 0 4 [] [] R =
      decodeLoop ys 0 0 4 [] [] (R ++ [(dotJoin (pad4 s), p, dotJoin g)]) := by
  rw [decodeLoop_step_mask p (s ++ (g ++ ys)) 0 4 [] [] R, ← hs,
    consume_subnet s (g ++ ys) p [] R hp,
    consume_gateway4 g ys p ([] ++ s) [] R hp hg]
  simp

theorem decode_truncated (xs : List Nat) :
    ∀ m nb gb ds dg R, m ≠ 0 → 1 ≤ gb → xs.length < nb + gb →
      decodeLoop xs m nb gb ds dg R = R := by
  induction xs with
  | nil => intros; rfl
  | cons x xs ih =>
    intro m nb gb ds dg R hm hgb hlen
    simp only [List.length_cons] at hlen
    by_cases hnb : nb = 0
    · subst hnb
      have hgb2 : ¬ gb - 1 = 0 := by omega
      rw [decodeLoop_step_gw x xs m gb ds dg R hm hgb2]
      exact ih m 0 (gb - 1) ds (dg ++ [x]) R hm (by omega) (by omega)
    · rw [decodeLoop_step_subnet x xs m nb gb ds dg R hm hnb (by omega)]
      exact ih m (nb - 1) gb (ds ++ [x]) dg R hm hgb (by omega)

theorem decode_short_fresh (xs : List Nat) :
    ∀ R, xs.length ≤ 4 → decodeLoop xs 0 0 4 [] [] R = R := by
  induction xs with
  | nil => intros; rfl
  | cons b rest ih =>
    intro R hlen
    simp only [List.length_cons] at hlen
    rw [decodeLoop_step_mask b rest 0 4 [] [] R]
    by_cases hb : b = 0
    · subst hb
      simpa using ih R (by omega)
    · exact decode_truncated rest b (b / 8) 4 [] [] R hb (by omega) (by omega)

theorem decode_encode_aux (ts : List (Nat × List Nat × List Nat)) :
    ∀ R tail,
      (∀ t ∈ ts, 1 ≤ t.1 ∧ t.1 ≤ 32 ∧ t.2.1.length = 4 ∧ t.2.2.length = 4) →
      decodeLoop (encodeTuples ts ++ tail) 0 0 4 [] [] R =
        decodeLoop tail 0 0 4 [] [] (R ++ ts.map decodedOne) := by
  induction ts with
  | nil => intro R tail _; simp [encodeTuples]
  | cons t ts ih =>
    intro R tail hwf
    obtain ⟨hp1, hp32, hs, hg⟩ := hwf t (List.mem_cons_self t ts)
    have hwf2 : ∀ u ∈ ts, 1 ≤ u.1 ∧ u.1 ≤ 32 ∧ u.2.1.length = 4 ∧ u.2.2.length = 4 :=
      fun u hu => hwf u (List.mem_cons_of_mem t hu)
    have hlen : (t.2.1.take (t.1 / 8)).length = t.1 / 8 := by
      rw [List.length_take, hs]
      omega
    have henc : encodeTuples (t :: ts) ++ tail =
        t.1 :: (t.2.1.take (t.1 / 8) ++ (t.2.2 ++ (encodeTuples ts ++ tail))) := by
      simp [encodeTuples, encodeOne]
    rw [henc,
      decode_record t.1 (t.2.1.take (t.1 / 8)) t.2.2 (encodeTuples ts ++ tail) R
        (by omega) hlen hg]
    have h2 := ih (R ++ [decodedOne t]) tail hwf2
    simp only [decodedOne] at h2
    rw [h2]
    simp [decodedOne, List.append_assoc]

theorem filterOptM_sound {α : Type} (p : α → Option Bool) (l : List α) :
    ∀ r, filterOptM p l = some r → ∀ x ∈ r, x ∈ l ∧ p x = some true := by
  induction l with
  | nil =>
    intro r h x hx
    simp only [filterOptM, Option.some.injEq] at h
    subst h
    simp at hx
  | cons a l ih =>
    intro r h x hx
    simp only [filterOptM, Option.bind_eq_bind] at h
    cases hpa : p a with
    | none => rw [hpa] at h; simp at h
    | some b =>
      rw [hpa] at h
      simp only [Option.some_bind] at h
      cases hfl : filterOptM p l with
      | none => rw [hfl] at h; simp at h
      | some r2 =>
        rw [hfl] at h
        simp only [Option.some_bind, Option.pure_def, Option.some.injEq] at h
        subst h
        cases b with
        | true =>
          rw [if_pos rfl] at hx
          rcases List.mem_cons.mp hx with rfl | hx2
          · exact ⟨List.mem_cons_self x l, hpa⟩
          · obtain ⟨hxl, hpx⟩ := ih r2 hfl x hx2
            exact ⟨List.mem_cons_of_mem a hxl, hpx⟩
        | false =>
          rw [if_neg (by decide)] at hx
          obtain ⟨hxl, hpx⟩ := ih r2 hfl x hx
          exact ⟨List.mem_cons_of_mem a hxl, hpx⟩

theorem filterOptM_keeps {α : Type} (p : α → Option Bool) (l : List α) :
    ∀ r, filterOptM p l = some r → ∀ x ∈ l, p x = some true → x ∈ r := by
  induction l with
  | nil => intro r _ x hx; simp at hx
  | cons a l ih =>
    intro r h x hx hpx
    simp only [filterOptM, Option.bind_eq_bind] at h
    cases hpa : p a with
    | none => rw [hpa] at h; simp at h
    | some b =>
      rw [hpa] at h
      simp only [Option.some_bind] at h
      cases hfl : filterOptM p l with
      | none => rw [hfl] at h; simp at h
      | some r2 =>
        rw [hfl] at h
        simp only [Option.some_bind, Option.pure_def, Option.some.injEq] at h
        subst h
        rcases List.mem_cons.mp hx with rfl | hx2
        · rw [hpa] at hpx
          have hb : b = true := by
            simpa using hpx
          subst hb
          simp
        · have hmem := ih r2 hfl x hx2 hpx
          cases b with
          | true => exact List.mem_cons_of_mem a hmem
          | false => simpa using hmem

theorem gwfold_all_false (gw : String) (l : List (String × Nat × String))
    (h : ∀ a ∈ l, subnet_check a.2.1 a.1 gw = some false) :
    ∀ acc : Bool,
      l.foldlM
        (fun acc a => do
          let b ← subnet_check a.2.1 a.1 gw
          pure (acc || b))
        acc = some acc := by
  induction l with
  | nil => intro acc; rfl
  | cons a l ih =>
    intro acc
    have ha := h a (List.mem_cons_self a l)
    have h2 : ∀ u ∈ l, subnet_check u.2.1 u.1 gw = some false :=
      fun u hu => h u (List.mem_cons_of_mem a hu)
    simp only [List.foldlM_cons, ha, Option.pure_def, Option.bind_eq_bind,
      Option.some_bind, Bool.or_false]
    exact ih h2 acc

theorem clear_nics_fold_mem (safenics_list : List String)
    (linkState : String → String) (nics : List String) :
    ∀ acc x,
      x ∈ nics.foldl
        (fun acc nic =>
          if nic ∉ safenics_list ∧ (matchNo (linkState nic) ∧ nic ∉ acc)
          then acc ++ [nic] else acc)
        acc →
      x ∈ acc ∨ (x ∉ safenics_list ∧ matchNo (linkState x) = true) := by
  induction nics with
  | nil => intro acc x h; exact Or.inl h
  | cons n nics ih =>
    intro acc x h
    simp only [List.foldl_cons] at h
    by_cases hc : n ∉ safenics_list ∧ (matchNo (linkState n) ∧ n ∉ acc)
    · rw [if_pos hc] at h
      rcases ih (acc ++ [n]) x h with hin | hp
      · rcases List.mem_append.mp hin with h1 | h2
        · exact Or.inl h1
        · right
          have hx : x = n := by simpa using h2
          subst hx
          exact ⟨hc.1, hc.2.1⟩
      · exact Or.inr hp
    · rw [if_neg hc] at h
      exact ih acc x h

theorem collect_fold_mem (routes : List (List String)) (L : List String) :
    ∀ acc x,
      x ∈ L.foldl
        (fun acc nic => acc ++ routes.filter (fun rt => rt.getD 3 "" == nic)) acc →
      x ∈ acc ∨ (x ∈ routes ∧ x.getD 3 "" ∈ L) := by
  induction L with
  | nil => intro acc x h; exact Or.inl h
  | cons n L ih =>
    intro acc x h
    simp only [List.foldl_cons] at h
    rcases ih (acc ++ routes.filter (fun rt => rt.getD 3 "" == n)) x h with hin | hp
    · rcases List.mem_append.mp hin with h1 | h2
      · exact Or.inl h1
      · right
        have h3 := List.mem_filter.mp h2
        refine ⟨h3.1, ?_⟩
        have h4 : x.getD 3 "" = n := by simpa using h3.2
        rw [h4]
        exact List.mem_cons_self n L
    · exact Or.inr ⟨hp.1, List.mem_cons_of_mem n hp.2⟩

theorem override_fold_force (lines : List String) :
    ∀ acc : String × PyVal × String × String × String,
      (lines.foldl overrideStep acc).2.2.1 = acc.2.2.1 := by
  induction lines with
  | nil => intro acc; rfl
  | cons l lines ih =>
    intro acc
    rw [List.foldl_cons, ih]
    obtain ⟨n, g, f, s, st⟩ := acc
    simp only [overrideStep]
    split
    · rfl
    · rfl

/-- C1: idempotent reconciliation fails on the code.  The snapshot holds
the desired destination network with identical prefix length (`"10.0.1.0"`
at `/24`), yet `set_routes` still issues the add for the decoded route:
routes decoded from option 121 data carry the integer mask `24`, the
snapshot rows carry the string mask `"24"`, and Python 2 `==` across
`int`/`str` is false, so the existing-route check never forces
`set = false` for decoded routes. -/
theorem set_routes_readds_decoded_route :
    get_route_table_with_masks
        [["10.0.1/24", "192.168.1.254", "UGSc", "0", "0", "en1"]] =
      some [["10.0.1.0", "24", "192.168.1.254", "en1"]] ∧
    set_routes
        (routes_of_decoded (decode_option_121_stream [24, 10, 0, 1, 192, 168, 1, 254]))
        [] false ""
        [["10.0.1/24", "192.168.1.254", "UGSc", "0", "0", "en1"]] =
      some [⟨"10.0.1.0", pyInt 24, "192.168.1.254"⟩] := by decide

/-- C2: after the decoder reads a non-zero prefix-length byte `p`, it
consumes exactly `p / 8` (floor) subsequent bytes as subnet octets, then
four gateway bytes, and emits the record before continuing; a zero
prefix-length byte consumes zero subnet octets (the falsy mask leaves the
decoder state unchanged). -/
theorem decode_consumes_floor_div_octets :
    (∀ p xs g ys, 0 < p → xs.length = p / 8 → g.length = 4 →
      decode_option_121_stream (p :: (xs ++ (g ++ ys))) =
        (dotJoin (pad4 xs), p, dotJoin g) :: decode_option_121_stream ys) ∧
    (∀ ys, decode_option_121_stream (0 :: ys) = decode_option_121_stream ys) := by
  constructor
  · intro p xs g ys hp hxs hg
    simp only [decode_option_121_stream]
    rw [decode_record p xs g ys [] (by omega) hxs hg, decodeLoop_append]
    simp
  · intro ys
    simp only [decode_option_121_stream]
    rw [decodeLoop_step_mask 0 ys 0 4 [] [] []]

/-- C2 witness: a prefix length of 25 bits consumes exactly three subnet
octets (not the RFC 3442 ceiling of four). -/
theorem decode_consumes_floor_div_octets_witness :
    decode_option_121_stream [25, 10, 0, 2, 192, 168, 1, 253] =
      [("10.0.2.0", 25, "192.168.1.253")] := by
  have h := decode_consumes_floor_div_octets.1 25 [10, 0, 2] [192, 168, 1, 253] []
    (by decide) (by decide) (by decide)
  simp only [List.cons_append, List.nil_append, List.append_nil] at h
  rw [h]
  decide

/-- C3: the prefix-length invariant `[0, 32]` fails on the code.  The
decoder emits the unvalidated prefix byte `0x21 = 33` as a route's prefix
length, and the snapshot parser leaves the mask of the ordinary class-C
destination `192.168.1.0` as the empty string — not a number in `[0, 32]`
at all — because its third classful test compares a three-character slice
with the two-character literal `'11'`. -/
theorem prefix_length_invariant_violated :
    decode_option_121_stream [33, 10, 0, 0, 0, 192, 168, 1, 1] =
      [("10.0.0.0", 33, "192.168.1.1")] ∧
    ¬ (33 : Nat) ≤ 32 ∧
    get_route_table_with_masks
        [["192.168.1.0", "192.168.0.1", "UGSc", "0", "0", "en0"]] =
      some [["192.168.1.0", "", "192.168.0.1", "en0"]] := by decide

/-- C4: the token filter fails to exclude the `'..'` filler on the code.
On a capture line holding exactly two data bytes, the two-character filler
token passes the length test, and the `entry is not '..'` guard — an
object-identity test against a fresh `split()` string — keeps it, so the
hexadecimal conversion raises and the decode returns nothing. -/
theorem byte_filter_keeps_filler_token :
    buildByteStream ["0030  c0 a8  .."] = ["c0", "a8", ".."] ∧
    decode_option_121 ["0030  c0 a8  .."] = none := by decide

/-- C5 counterexample: the round-trip fails for a tuple with prefix length
`0`.  The encoded record `[0, 192, 168, 1, 1]` decodes to no route at all:
the zero mask is falsy, so the decoder re-reads the next byte as a new
prefix length instead of collecting the gateway. -/
theorem decode_roundtrip_fails_at_zero :
    decode_option_121_stream (encodeTuples [(0, [0, 0, 0, 0], [192, 168, 1, 1])]) ≠
      [((0 : Nat), ([0, 0, 0, 0], [192, 168, 1, 1]))].map decodedOne := by decide

/-- C5 amended: for every sequence of tuples whose prefix lengths lie in
`[1, 32]` (a zero prefix length is excluded: its record is silently
swallowed) and whose subnet and gateway each hold four octets, decoding the
wire encoding reproduces the tuples in order, with each subnet truncated to
`prefixLength / 8` octets and read back zero-padded. -/
theorem decode_roundtrip_nonzero (ts : List (Nat × List Nat × List Nat))
    (hwf : ∀ t ∈ ts, 1 ≤ t.1 ∧ t.1 ≤ 32 ∧ t.2.1.length = 4 ∧ t.2.2.length = 4) :
    decode_option_121_stream (encodeTuples ts) = ts.map decodedOne := by
  have h := decode_encode_aux ts [] [] hwf
  simpa [decode_option_121_stream, decodeLoop] using h

/-- C5 witness: the round-trip at two concrete tuples with prefix lengths
24 and 25. -/
theorem decode_roundtrip_nonzero_witness :
    decode_option_121_stream
        (encodeTuples [(24, [10, 0, 1, 0], [192, 168, 1, 254]),
          (25, [10, 0, 2, 0], [192, 168, 1, 253])]) =
      [((24 : Nat), ([10, 0, 1, 0], [192, 168, 1, 254])),
        ((25 : Nat), ([10, 0, 2, 0], [192, 168, 1, 253]))].map decodedOne :=
  decode_roundtrip_nonzero _ (by decide)

/-- C6: gateway-check gating.  For a desired route whose
`(subnet, mask)` is not matched by any snapshot row under the code's own
comparison, an enabled gateway check with no interface address satisfying
`subnet_check` suppresses the add, while a disabled check issues it; and
`subnet_check` returns exactly the comparison of the two addresses under
the mask `(0xFFFFFFFF >> bits) ^ 0xFFFFFFFF`. -/
theorem gateway_check_gating (routes : List PyRoute)
    (addresses : List (String × Nat × String))
    (route_table : List (List String)) (current : List (List String))
    (r : PyRoute)
    (hcur : get_route_table_with_masks route_table = some current)
    (hmem : r ∈ routes)
    (hnp : current.any
      (fun c => c.getD 0 "" == r.subnet && pyEq (pyStr (c.getD 1 "")) r.mask) =
      false) :
    ((∀ a ∈ addresses, subnet_check a.2.1 a.1 r.gateway = some false) →
      ∀ adds, set_routes routes addresses true "" route_table = some adds →
        r ∉ adds) ∧
    (∀ adds, set_routes routes addresses false "" route_table = some adds →
      r ∈ adds) ∧
    (∀ bits a t va vt, inet_aton a = some va → inet_aton t = some vt →
      subnet_check bits a t =
        some ((va &&& ((0xFFFFFFFF >>> bits) ^^^ 0xFFFFFFFF)) ==
          (vt &&& ((0xFFFFFFFF >>> bits) ^^^ 0xFFFFFFFF)))) := by
  have hset : ∀ gc : Bool, set_routes routes addresses gc "" route_table =
      filterOptM (route_set_decision gc addresses current) routes := by
    intro gc
    simp [set_routes, hcur]
  refine ⟨?_, ?_, ?_⟩
  · intro hall adds hsr hin
    have hdec : route_set_decision true addresses current r = some false := by
      have hfold := gwfold_all_false r.gateway addresses hall false
      simp only [route_set_decision]
      rw [if_pos trivial, hfold]
      simp
    rw [hset true] at hsr
    obtain ⟨_, hpx⟩ := filterOptM_sound _ routes adds hsr r hin
    rw [hdec] at hpx
    simp at hpx
  · intro adds hsr
    have hdec : route_set_decision false addresses current r = some true := by
      simp only [route_set_decision]
      rw [if_neg Bool.false_ne_true]
      simp only [Option.pure_def, Option.some_bind]
      rw [hnp]
      simp
    rw [hset false] at hsr
    exact filterOptM_keeps _ routes adds hsr r hmem hdec
  · intro bits a t va vt h1 h2
    simp [subnet_check, h1, h2]

/-- C6 witness: the route to `10.0.1.0/24` via gateway `10.99.0.1` is not
within the only configured subnet `192.168.1.10/24`, so it is skipped with
the check enabled and installed with the check disabled. -/
theorem gateway_check_gating_witness :
    (⟨"10.0.1.0", pyStr "24", "10.99.0.1"⟩ : PyRoute) ∉ ([] : List PyRoute) ∧
    (⟨"10.0.1.0", pyStr "24", "10.99.0.1"⟩ : PyRoute) ∈
      [(⟨"10.0.1.0", pyStr "24", "10.99.0.1"⟩ : PyRoute)] := by
  constructor
  · exact (gateway_check_gating [⟨"10.0.1.0", pyStr "24", "10.99.0.1"⟩]
      [("192.168.1.10", 24, "192.168.1.255")] [] []
      ⟨"10.0.1.0", pyStr "24", "10.99.0.1"⟩
      (by decide) (by decide) (by decide)).1 (by decide) [] (by decide)
  · exact (gateway_check_gating [⟨"10.0.1.0", pyStr "24", "10.99.0.1"⟩]
      [("192.168.1.10", 24, "192.168.1.255")] [] []
      ⟨"10.0.1.0", pyStr "24", "10.99.0.1"⟩
      (by decide) (by decide) (by decide)).2.1
      [⟨"10.0.1.0", pyStr "24", "10.99.0.1"⟩] (by decide)

/-- C7: stale pruning never touches safe interfaces.  For an interface on
the (whitespace-split, stripped) safe list and off the force list,
`clear_routes` issues no delete against any route row attributed to it,
whatever its link state; and every deleted row's interface is either on the
force list or both off the safe list and reported down/absent. -/
theorem clear_routes_spares_safe_nics (forcenics safenics : String)
    (route_table : List (List String)) (interfaces : List String)
    (linkState : String → String) (nic : String) (deleted : List (List String))
    (hsafe : nic ∈ (splitWS safenics).map pyStrip)
    (hforce : nic ∉ (splitWS forcenics).map pyStrip)
    (hrun : clear_routes forcenics safenics route_table interfaces linkState =
      some deleted) :
    (∀ d ∈ deleted, d.getD 3 "" ≠ nic) ∧
    (∀ d ∈ deleted,
      d.getD 3 "" ∈ (splitWS forcenics).map pyStrip ∨
        (d.getD 3 "" ∉ (splitWS safenics).map pyStrip ∧
          matchNo (linkState (d.getD 3 "")) = true)) := by
  simp only [clear_routes, Option.bind_eq_bind] at hrun
  cases hrt : get_route_table_with_masks route_table with
  | none => rw [hrt] at hrun; simp at hrun
  | some routes =>
    rw [hrt] at hrun
    simp only [Option.some_bind, Option.pure_def, Option.some.injEq] at hrun
    subst hrun
    constructor
    · intro d hd
      rcases collect_fold_mem routes _ [] d hd with h0 | hp
      · simp at h0
      · rcases clear_nics_fold_mem ((splitWS safenics).map pyStrip) linkState
          (parseNics interfaces) ((splitWS forcenics).map pyStrip)
          (d.getD 3 "") hp.2 with hin | hdown
        · intro he; rw [he] at hin; exact hforce hin
        · intro he; rw [he] at hdown; exact hdown.1 hsafe
    · intro d hd
      rcases collect_fold_mem routes _ [] d hd with h0 | hp
      · simp at h0
      · rcases clear_nics_fold_mem ((splitWS safenics).map pyStrip) linkState
          (parseNics interfaces) ((splitWS forcenics).map pyStrip)
          (d.getD 3 "") hp.2 with hin | hdown
        · exact Or.inl hin
        · exact Or.inr hdown

/-- C7 witness: with safe list `en0`, force list `fw0`, both interfaces
reporting a down link state and each owning one route, only the `fw0` route
is deleted and no delete touches `en0`. -/
theorem clear_routes_spares_safe_nics_witness :
    (∀ d ∈ [["192.168.1.0", "24", "192.168.1.1", "fw0"]],
      List.getD d 3 "" ≠ "en0") ∧
    (∀ d ∈ [["192.168.1.0", "24", "192.168.1.1", "fw0"]],
      List.getD d 3 "" ∈ (splitWS "fw0").map pyStrip ∨
        (List.getD d 3 "" ∉ (splitWS "en0").map pyStrip ∧
          matchNo ((fun _ => "No") (List.getD d 3 "")) = true)) :=
  clear_routes_spares_safe_nics "fw0" "en0"
    [["10.0.0/24", "10.0.0.1", "UGSc", "0", "0", "en0"],
     ["192.168.1/24", "192.168.1.1", "UGSc", "0", "0", "fw0"]]
    ["en0: flags=8863<UP>", "fw0: flags=8863<UP>", "\tinet 10.0.0.2"]
    (fun _ => "No") "en0" [["192.168.1.0", "24", "192.168.1.1", "fw0"]]
    (by decide) (by decide) (by decide)

/-- C8 counterexample: the original claim fails when a preceding complete
record has prefix length `0`.  The stream encodes the complete record
`(0, 0.0.0.0, 192.168.1.1)` followed by a truncated record (prefix byte
`24`, then only two of its seven required bytes); the claim predicts the
complete record's route is still returned, but the decoder swallows it —
the zero `subnet_mask` is falsy, so the gateway byte `192` is re-read as a
new prefix length — and returns no route at all. -/
theorem decode_truncated_loses_zero_prefix_record :
    decode_option_121_stream
        (encodeTuples [(0, [0, 0, 0, 0], [192, 168, 1, 1])] ++ (24 :: [10, 0])) =
      [] ∧
    decode_option_121_stream
        (encodeTuples [(0, [0, 0, 0, 0], [192, 168, 1, 1])] ++ (24 :: [10, 0])) ≠
      [((0 : Nat), ([0, 0, 0, 0], [192, 168, 1, 1]))].map decodedOne := by decide

/-- C8 amended: a byte stream of complete records whose prefix lengths lie
in `[1, 32]`, ending before the trailing record can supply its
`prefixLength / 8` subnet octets plus four gateway octets, decodes to
exactly the routes of those preceding complete records, in order; no
partial route is emitted for the truncated trailing record.  A preceding
complete record with prefix length `0` is excluded: the decoder silently
swallows it, because its falsy mask re-reads the following byte as a
prefix length. -/
theorem decode_drops_truncated_trailing (ts : List (Nat × List Nat × List Nat))
    (p : Nat) (extra : List Nat)
    (hwf : ∀ t ∈ ts, 1 ≤ t.1 ∧ t.1 ≤ 32 ∧ t.2.1.length = 4 ∧ t.2.2.length = 4)
    (hextra : extra.length < p / 8 + 4) :
    decode_option_121_stream (encodeTuples ts ++ (p :: extra)) =
      ts.map decodedOne := by
  have h := decode_encode_aux ts [] (p :: extra) hwf
  simp only [decode_option_121_stream]
  rw [h]
  simp only [List.nil_append]
  by_cases hp : p = 0
  · subst hp
    exact decode_short_fresh (0 :: extra) (ts.map decodedOne)
      (by simp only [List.length_cons]; omega)
  · rw [decodeLoop_step_mask p extra 0 4 [] [] (ts.map decodedOne)]
    exact decode_truncated extra p (p / 8) 4 [] [] (ts.map decodedOne) hp
      (by omega) (by omega)

/-- C8 witness: one complete record followed by a record cut off after two
subnet octets decodes to exactly the complete record's route. -/
theorem decode_drops_truncated_trailing_witness :
    decode_option_121_stream
        (encodeTuples [(24, [10, 0, 1, 0], [192, 168, 1, 254])] ++ (24 :: [10, 0])) =
      [((24 : Nat), ([10, 0, 1, 0], [192, 168, 1, 254]))].map decodedOne :=
  decode_drops_truncated_trailing _ 24 [10, 0] (by decide) (by decide)

/-- C9: the classful inference boundary fails on the code for class C.
A maskless `10.0.0.0` row infers `"8"` and a maskless `172.16.0.0` row
infers `"16"` as claimed, but a maskless `192.168.1.0` row is left with the
empty-string mask instead of `"24"`: the test `bit_subnet[:3] == '11'`
compares a three-character slice against a two-character literal and can
never be true. -/
theorem classful_inference_class_c_empty :
    get_route_table_with_masks
        [["10.0.0.0", "10.0.0.1", "UGSc", "0", "0", "en0"],
         ["172.16.0.0", "10.0.0.1", "UGSc", "0", "0", "en0"],
         ["192.168.1.0", "10.0.0.1", "UGSc", "0", "0", "en0"]] =
      some [["10.0.0.0", "8", "10.0.0.1", "en0"],
            ["172.16.0.0", "16", "10.0.0.1", "en0"],
            ["192.168.1.0", "", "10.0.0.1", "en0"]] := by decide

/-- C10: for every override-file content the third element of
`check_for_override_file`'s result (the force list) is the empty string —
no `forcenics` key is ever parsed — and `main`'s positional unpacking binds
that third element to its `safenics` variable and the fourth (the parsed
`safe_nics` value) to its `forcenics` variable, so `clear_routes` receives
the configured `safe_nics` interfaces in the force-clear position and an
empty string in the safe position, on both of `main`'s branches. -/
theorem override_force_list_empty_and_swapped :
    ∀ file_data : List String,
      (check_for_override_file file_data).2.2.1 = "" ∧
      main_clear_args file_data =
        ((check_for_override_file file_data).2.2.2.1, "") ∧
      ∀ default_nic, (main_clear_args_with_packet file_data default_nic).2 = "" := by
  intro fd
  have hf : (check_for_override_file fd).2.2.1 = "" := by
    have h := override_fold_force fd ("", pyBool true, "", "", "")
    simpa [check_for_override_file] using h
  refine ⟨hf, ?_, ?_⟩
  · simp [main_clear_args, hf]
  · intro dn
    simp [main_clear_args_with_packet, hf]
